import Mathlib

/-!
Shallow embedding of the Task Manager FastAPI backend (`src/backend/main.py`).

The program keeps a module-level `tasks_db : dict[int, Task]` together with a
counter `current_id`, and exposes `list_tasks`, `create_task`, `get_task`,
`update_task` and `delete_task`.  We embed the state as an explicit structure
`StoreState` (an association list standing for the Python dict, which preserves
insertion order, plus the counter), and each handler as a pure function from
state to result and next state.  The wall clock (`datetime.utcnow()`) is passed
in explicitly; calendar dates and timestamps are opaque values, since the code
only stores and returns them.
-/

namespace TaskManager

/-- `datetime.date` values: the code never computes with them, so any type with
decidable equality models them faithfully. -/
abbrev Date := Nat

/-- `datetime.datetime` values (UTC timestamps), likewise opaque. -/
abbrev DateTime := Nat

/-- The `Task` pydantic model: the `TaskBase` fields plus `id` and
`created_at`. -/
structure Task where
  title : String
  description : Option String
  status : String
  due_date : Option Date
  assignee : Option String
  id : Nat
  created_at : DateTime
  deriving DecidableEq, Repr

/-- The `TaskCreate` model after pydantic has parsed the request body:
`title` is a required string, `status` has been defaulted to a string, and the
remaining fields are nullable. -/
structure TaskCreate where
  title : String
  description : Option String
  status : String
  due_date : Option Date
  assignee : Option String
  deriving DecidableEq, Repr

/-- The raw JSON body of `POST /tasks`, before pydantic validation: each field
is either absent (outer `none`) or present; present nullable fields may carry
`null` (inner `none`). -/
structure RawTaskCreate where
  title : Option (Option String)
  description : Option (Option String)
  status : Option (Option String)
  due_date : Option (Option Date)
  assignee : Option (Option String)
  deriving DecidableEq, Repr

/-- The `TaskUpdate` model, tracking which fields the client explicitly set
(pydantic `__fields_set__`, read back via `dict(exclude_unset=True)`):
outer `none` means the field was absent from the payload, `some v` means it was
explicitly set to `v` (where `v` may itself be `null`). -/
structure TaskUpdate where
  title : Option (Option String)
  description : Option (Option String)
  status : Option (Option String)
  due_date : Option (Option Date)
  assignee : Option (Option String)
  deriving DecidableEq, Repr

/-- The `TaskUpdate` payload with no field set: `PUT /tasks/id` with body
`\x7b\x7d`. -/
def emptyUpdate : TaskUpdate :=
  ⟨none, none, none, none, none⟩

/-- Error signals the handlers can produce: an explicit
`HTTPException(status_code, detail)` raise, or a pydantic `ValidationError`
escaping from model construction. -/
inductive ApiError where
  | httpException (status_code : Nat) (detail : String)
  | validationError
  deriving DecidableEq, Repr

/-- The one explicit `HTTPException` the code raises. -/
def notFound : ApiError := .httpException 404 "Task not found"

/-- The plain dictionary `task.dict()` of a stored `Task`, as used by
`update_task`: every field keyed, with nullable columns and the (possibly
null-after-merge) `title`/`status` slots. -/
structure TaskData where
  title : Option String
  description : Option String
  status : Option String
  due_date : Option Date
  assignee : Option String
  id : Nat
  created_at : DateTime
  deriving DecidableEq, Repr

/-- `stored_task.dict()`. -/
def Task.toData (t : Task) : TaskData :=
  ⟨some t.title, t.description, some t.status, t.due_date, t.assignee, t.id, t.created_at⟩

/-- `Task(**data)`: pydantic re-validation of a merged dict.  `title : str` and
`status : str` reject `None` (a default never applies to an explicitly passed
`None`); the nullable fields accept anything. -/
def taskFromData (d : TaskData) : Except ApiError Task :=
  match d.title, d.status with
  | some t, some st =>
      .ok ⟨t, d.description, st, d.due_date, d.assignee, d.id, d.created_at⟩
  | _, _ => .error .validationError

/-- `updated_task_data = stored_task.dict(); updated_task_data.update(update_data)`
where `update_data = task_update.dict(exclude_unset=True)`: fields the client
set overlay the stored ones, the rest are kept.  `id` and `created_at` cannot
occur in `update_data` (they are not `TaskUpdate` fields), so they are kept. -/
def mergeData (d : TaskData) (u : TaskUpdate) : TaskData :=
  { d with
    title := u.title.getD d.title
    description := u.description.getD d.description
    status := u.status.getD d.status
    due_date := u.due_date.getD d.due_date
    assignee := u.assignee.getD d.assignee }

/-- The module-level mutable state: `tasks_db` (a Python dict, i.e. an
insertion-ordered association list with unique keys) and `current_id`. -/
structure StoreState where
  tasks_db : List (Nat × Task)
  current_id : Nat
  deriving DecidableEq, Repr

/-- The state at process start: empty dict, counter `0`. -/
def emptyStore : StoreState := ⟨[], 0⟩

/-- `tasks_db.get(k)`. -/
def dictGet (k : Nat) : List (Nat × Task) → Option Task
  | [] => none
  | p :: ps => if p.1 = k then some p.2 else dictGet k ps

/-- `tasks_db[k] = v`: a present key keeps its position and gets the new
value; an absent key is appended (CPython dicts preserve insertion order). -/
def dictInsert (k : Nat) (v : Task) : List (Nat × Task) → List (Nat × Task)
  | [] => [(k, v)]
  | p :: ps => if p.1 = k then (k, v) :: ps else p :: dictInsert k v ps

/-- `del tasks_db[k]`: removes the entry for `k` (keys are unique, so removing
the first occurrence is exact). -/
def dictDelete (k : Nat) : List (Nat × Task) → List (Nat × Task)
  | [] => []
  | p :: ps => if p.1 = k then ps else p :: dictDelete k ps

/-- `get_next_id()`: increments `current_id` and returns the new value. -/
def get_next_id (s : StoreState) : Nat × StoreState :=
  (s.current_id + 1, { s with current_id := s.current_id + 1 })

/-- The `Task(...)` constructed inside `create_task`: payload fields plus the
allocated id and the captured timestamp. -/
def buildTask (task_id : Nat) (p : TaskCreate) (now : DateTime) : Task :=
  ⟨p.title, p.description, p.status, p.due_date, p.assignee, task_id, now⟩

/-- `create_task`: allocate the next id, build the task with `created_at` set
to the current UTC time, store it, return it. -/
def create_task (task_in : TaskCreate) (now : DateTime) (s : StoreState) :
    Task × StoreState :=
  let a := get_next_id s
  let task := buildTask a.1 task_in now
  (task, { a.2 with tasks_db := dictInsert a.1 task a.2.tasks_db })

/-- `list_tasks()`: `list(tasks_db.values())` in insertion order. -/
def list_tasks (s : StoreState) : List Task :=
  s.tasks_db.map Prod.snd

/-- `get_task`: look the id up; raise 404 if absent. -/
def get_task (task_id : Nat) (s : StoreState) : Except ApiError Task × StoreState :=
  match dictGet task_id s.tasks_db with
  | none => (.error notFound, s)
  | some task => (.ok task, s)

/-- `update_task`: 404 if the id is absent; otherwise merge the explicitly set
payload fields over the stored task's dict, re-validate via `Task(**...)`
(which may raise a `ValidationError` before any mutation), store the merged
task back under the same key, and return it. -/
def update_task (task_id : Nat) (task_update : TaskUpdate) (s : StoreState) :
    Except ApiError Task × StoreState :=
  match dictGet task_id s.tasks_db with
  | none => (.error notFound, s)
  | some stored_task =>
      match taskFromData (mergeData stored_task.toData task_update) with
      | .error e => (.error e, s)
      | .ok updated_task =>
          (.ok updated_task, { s with tasks_db := dictInsert task_id updated_task s.tasks_db })

/-- `delete_task`: 404 if the id is absent; otherwise remove the entry and
return no content. -/
def delete_task (task_id : Nat) (s : StoreState) :
    Except ApiError Unit × StoreState :=
  match dictGet task_id s.tasks_db with
  | none => (.error notFound, s)
  | some _ => (.ok (), { s with tasks_db := dictDelete task_id s.tasks_db })

/-- Pydantic validation of a raw `POST /tasks` body against `TaskCreate`:
`title` must be present and non-null; `status`, if present, must be non-null
(its default `"todo"` applies only when the key is absent); the nullable
optional fields default to `null` when absent. -/
def parseTaskCreate (r : RawTaskCreate) : Except ApiError TaskCreate :=
  match r.title with
  | some (some t) =>
      match r.status with
      | some (some st) =>
          .ok ⟨t, r.description.getD none, st, r.due_date.getD none, r.assignee.getD none⟩
      | some none => .error .validationError
      | none =>
          .ok ⟨t, r.description.getD none, "todo", r.due_date.getD none, r.assignee.getD none⟩
  | _ => .error .validationError

/-- The `POST /tasks` endpoint seen from the HTTP boundary: body validation
(422 on failure, before the handler runs and before any state mutation), then
`create_task`. -/
def create_task_endpoint (r : RawTaskCreate) (now : DateTime) (s : StoreState) :
    Except ApiError Task × StoreState :=
  match parseTaskCreate r with
  | .error e => (.error e, s)
  | .ok p =>
      let a := create_task p now s
      (.ok a.1, a.2)

/-- One mutating API call, for reasoning about operation sequences.  Each
`create` carries the wall-clock time the handler would capture. -/
inductive Op where
  | create (payload : TaskCreate) (now : DateTime)
  | update (id : Nat) (payload : TaskUpdate)
  | delete (id : Nat)
  deriving DecidableEq, Repr

/-- The state after one operation (errors leave the state unchanged, exactly
as the handlers do). -/
def runOp (s : StoreState) : Op → StoreState
  | .create p now => (create_task p now s).2
  | .update id u => (update_task id u s).2
  | .delete id => (delete_task id s).2

/-- The state after a sequence of operations. -/
def runOps (ops : List Op) (s : StoreState) : StoreState :=
  ops.foldl runOp s

/-- The keys of a dict, in insertion order. -/
def dkeys (d : List (Nat × Task)) : List Nat :=
  d.map Prod.fst

/-- The keys of the store, in dict (insertion) order. -/
def keys (s : StoreState) : List Nat :=
  dkeys s.tasks_db

/-- Invariant of every reachable state: keys are strictly increasing in
insertion order (hence unique) and never exceed the allocator counter. -/
def WF (s : StoreState) : Prop :=
  (keys s).Pairwise (· < ·) ∧ ∀ k ∈ keys s, k ≤ s.current_id

/-- The ids handed out by the `create` calls of a run, read off the tasks the
handler returns. -/
def createdIds : List Op → StoreState → List Nat
  | [], _ => []
  | .create p now :: ops, s => (create_task p now s).1.id :: createdIds ops (runOp s (.create p now))
  | .update id u :: ops, s => createdIds ops (runOp s (.update id u))
  | .delete id :: ops, s => createdIds ops (runOp s (.delete id))

/-- Run a list of create calls, collecting the ids of the returned tasks. -/
def runCreates : List (TaskCreate × DateTime) → StoreState → List Nat × StoreState
  | [], s => ([], s)
  | c :: cs, s =>
      let a := create_task c.1 c.2 s
      let b := runCreates cs a.2
      (a.1.id :: b.1, b.2)

/-- Specification-side view for the listing claim, following the spec's words:
the value a given id carries after a trace is that of its most recent
successful create or update, `none` once deleted.  The fold tracks only the
allocator counter and the one id's current value. -/
def specFinal (id : Nat) : List Op → Nat → Option Task → Option Task
  | [], _, cur => cur
  | .create p now :: ops, c, cur =>
      specFinal id ops (c + 1) (if c + 1 = id then some (buildTask (c + 1) p now) else cur)
  | .update id' u :: ops, c, cur =>
      if id' = id then
        match cur with
        | some t =>
            match taskFromData (mergeData t.toData u) with
            | .ok t' => specFinal id ops c (some t')
            | .error _ => specFinal id ops c cur
        | none => specFinal id ops c cur
      else specFinal id ops c cur
  | .delete id' :: ops, c, cur =>
      specFinal id ops c (if id' = id then none else cur)

/-- Specification-side view of the listing order: ids of tasks created and not
subsequently deleted, in order of creation (creates append the freshly
allocated id, deletes remove it, updates leave the order alone). -/
def specKeys : List Op → Nat → List Nat → List Nat
  | [], _, ks => ks
  | .create _ _ :: ops, c, ks => specKeys ops (c + 1) (ks ++ [c + 1])
  | .update _ _ :: ops, c, ks => specKeys ops c ks
  | .delete id :: ops, c, ks => specKeys ops c (ks.filter (fun x => x ≠ id))

/-- A sample stored task (scenario 1 of the spec), for concrete evaluations. -/
def sampleTask : Task := ⟨"Write spec", none, "todo", none, none, 1, 0⟩

/-- A sample one-task store, as left by creating `sampleTask` from scratch. -/
def sampleStore : StoreState := ⟨[(1, sampleTask)], 1⟩

/-- A sample create payload. -/
def samplePayload : TaskCreate := ⟨"Write spec", none, "todo", none, none⟩

/-! ### Dictionary lemmas -/

theorem dictGet_insert_self (k : Nat) (v : Task) (d : List (Nat × Task)) :
    dictGet k (dictInsert k v d) = some v := by
  induction d with
  | nil => simp [dictInsert, dictGet]
  | cons p ps ih =>
      by_cases h : p.1 = k
      · simp [dictInsert, dictGet, h]
      · simp [dictInsert, dictGet, h, ih]

theorem dictGet_insert_ne (k k' : Nat) (v : Task) (d : List (Nat × Task))
    (h : k' ≠ k) : dictGet k' (dictInsert k v d) = dictGet k' d := by
  have h' : ¬k = k' := fun hk => h hk.symm
  induction d with
  | nil => simp [dictInsert, dictGet, h']
  | cons p ps ih =>
      by_cases hp : p.1 = k
      · have hne : ¬p.1 = k' := by
          rw [hp]
          exact h'
        simp [dictInsert, dictGet, h', hp, hne]
      · simp only [dictInsert, if_neg hp, dictGet]
        by_cases hp' : p.1 = k'
        · simp [hp']
        · simp [hp', ih]

theorem dictInsert_of_get_eq (k : Nat) (v : Task) (d : List (Nat × Task))
    (h : dictGet k d = some v) : dictInsert k v d = d := by
  induction d with
  | nil => simp [dictGet] at h
  | cons p ps ih =>
      by_cases hp : p.1 = k
      · simp only [dictGet, if_pos hp] at h
        obtain rfl : p.2 = v := by injection h
        simp only [dictInsert, ← hp]
        simp [dictInsert]
      · simp only [dictGet, if_neg hp] at h
        simp only [dictInsert, if_neg hp, ih h]

theorem dictGet_eq_none_iff (k : Nat) (d : List (Nat × Task)) :
    dictGet k d = none ↔ k ∉ dkeys d := by
  induction d with
  | nil => simp [dictGet, dkeys]
  | cons p ps ih =>
      simp only [dictGet, dkeys, List.map_cons, List.mem_cons]
      by_cases hp : p.1 = k
      · subst hp
        simp
      · have hne : ¬k = p.1 := fun he => hp he.symm
        rw [if_neg hp]
        constructor
        · intro hnone hmem
          rcases hmem with he | hm
          · exact hne he
          · exact (ih.1 hnone) hm
        · intro hnotin
          exact ih.2 fun hm => hnotin (Or.inr hm)

theorem dkeys_insert_absent (k : Nat) (v : Task) (d : List (Nat × Task))
    (h : dictGet k d = none) : dictInsert k v d = d ++ [(k, v)] := by
  induction d with
  | nil => simp [dictInsert]
  | cons p ps ih =>
      by_cases hp : p.1 = k
      · simp [dictGet, hp] at h
      · simp [dictGet, hp] at h
        simp [dictInsert, hp, ih h]

theorem dkeys_insert_present (k : Nat) (v t : Task) (d : List (Nat × Task))
    (h : dictGet k d = some t) : dkeys (dictInsert k v d) = dkeys d := by
  induction d with
  | nil => simp [dictGet] at h
  | cons p ps ih =>
      by_cases hp : p.1 = k
      · simp [dictInsert, dkeys, hp]
      · simp [dictGet, hp] at h
        simp [dictInsert, dkeys, hp] at ih ⊢
        exact ih h

theorem dictGet_delete_ne (k k' : Nat) (d : List (Nat × Task))
    (h : k' ≠ k) : dictGet k' (dictDelete k d) = dictGet k' d := by
  induction d with
  | nil => simp [dictDelete]
  | cons p ps ih =>
      have h' : ¬k = k' := fun hk => h hk.symm
      by_cases hp : p.1 = k
      · have hne : ¬p.1 = k' := by
          rw [hp]
          exact h'
        simp [dictDelete, dictGet, hp, hne, h']
      · simp [dictDelete, dictGet, hp, ih]

theorem dictDelete_of_get_none (k : Nat) (d : List (Nat × Task))
    (h : dictGet k d = none) : dictDelete k d = d := by
  induction d with
  | nil => simp [dictDelete]
  | cons p ps ih =>
      by_cases hp : p.1 = k
      · simp [dictGet, hp] at h
      · simp [dictGet, hp] at h
        simp [dictDelete, hp, ih h]

theorem dictGet_delete_self (k : Nat) (d : List (Nat × Task))
    (h : (dkeys d).Pairwise (· ≠ ·)) : dictGet k (dictDelete k d) = none := by
  induction d with
  | nil => simp [dictDelete, dictGet]
  | cons p ps ih =>
      obtain ⟨h1, h2⟩ := List.pairwise_cons.1
        (show ((p :: ps).map Prod.fst).Pairwise (· ≠ ·) from h)
      by_cases hp : p.1 = k
      · simp only [dictDelete, if_pos hp]
        rw [dictGet_eq_none_iff]
        subst hp
        intro hk
        exact (h1 p.1 hk) rfl
      · simp only [dictDelete, if_neg hp, dictGet, if_neg hp]
        exact ih h2

theorem dkeys_delete (k : Nat) (d : List (Nat × Task))
    (h : (dkeys d).Pairwise (· ≠ ·)) :
    dkeys (dictDelete k d) = (dkeys d).filter (fun x => x ≠ k) := by
  induction d with
  | nil => rfl
  | cons p ps ih =>
      obtain ⟨h1, h2⟩ := List.pairwise_cons.1
        (show ((p :: ps).map Prod.fst).Pairwise (· ≠ ·) from h)
      have hrec := ih h2
      simp only [dkeys] at hrec
      by_cases hp : p.1 = k
      · subst hp
        have hstep : dictDelete p.1 (p :: ps) = ps := by
          simp [dictDelete]
        have hcond : (decide (p.1 ≠ p.1)) = false := by
          simp
        rw [hstep]
        show List.map Prod.fst ps
            = List.filter (fun x => decide (x ≠ p.1)) (p.1 :: List.map Prod.fst ps)
        rw [List.filter_cons, hcond, if_neg (by simp)]
        exact (List.filter_eq_self.2 (fun x hx => by
          simp only [decide_eq_true_eq]
          exact fun he => (h1 x hx) he.symm)).symm
      · have hstep : dictDelete k (p :: ps) = p :: dictDelete k ps := by
          simp [dictDelete, hp]
        have hcond : (decide (p.1 ≠ k)) = true := by
          simp only [decide_eq_true_eq]
          exact hp
        rw [hstep]
        show p.1 :: dkeys (dictDelete k ps)
            = List.filter (fun x => decide (x ≠ k)) (p.1 :: List.map Prod.fst ps)
        rw [List.filter_cons, hcond, if_pos rfl]
        simp only [dkeys] at hrec ⊢
        rw [hrec]

/-- The values of a dict with distinct keys are recovered by looking each key
up in insertion order. -/
theorem values_eq_filterMap (d : List (Nat × Task))
    (h : (dkeys d).Pairwise (· ≠ ·)) :
    d.map Prod.snd = (dkeys d).filterMap (fun k => dictGet k d) := by
  induction d with
  | nil => simp [dkeys]
  | cons p ps ih =>
      obtain ⟨h1, h2⟩ := List.pairwise_cons.1
        (show ((p :: ps).map Prod.fst).Pairwise (· ≠ ·) from h)
      have hhead : dictGet p.1 (p :: ps) = some p.2 := by
        simp [dictGet]
      have htail : ∀ x ∈ List.map Prod.fst ps,
          dictGet x (p :: ps) = dictGet x ps := fun x hx => by
        simp only [dictGet]
        rw [if_neg (h1 x hx)]
      have hrec := ih h2
      simp only [dkeys] at hrec
      simp only [dkeys, List.map_cons, List.filterMap_cons, hhead]
      rw [List.filterMap_congr htail, ← hrec]

/-! ### State invariant lemmas -/

theorem get_task_state (id : Nat) (s : StoreState) :
    (get_task id s).2 = s := by
  unfold get_task
  split <;> rfl

theorem update_task_current_id (id : Nat) (u : TaskUpdate) (s : StoreState) :
    (update_task id u s).2.current_id = s.current_id := by
  unfold update_task
  split
  · rfl
  · split <;> rfl

theorem delete_task_current_id (id : Nat) (s : StoreState) :
    (delete_task id s).2.current_id = s.current_id := by
  unfold delete_task
  split <;> rfl

theorem create_task_current_id (p : TaskCreate) (now : DateTime) (s : StoreState) :
    (create_task p now s).2.current_id = s.current_id + 1 := rfl

theorem runOp_current_id_le (s : StoreState) (o : Op) :
    s.current_id ≤ (runOp s o).current_id := by
  cases o with
  | create p now => exact Nat.le_succ _
  | update id u => rw [runOp, update_task_current_id]
  | delete id => rw [runOp, delete_task_current_id]

theorem runOps_current_id_le (ops : List Op) (s : StoreState) :
    s.current_id ≤ (runOps ops s).current_id := by
  induction ops generalizing s with
  | nil => exact Nat.le_refl _
  | cons o ops ih =>
      exact Nat.le_trans (runOp_current_id_le s o) (ih (runOp s o))

theorem WF_emptyStore : WF emptyStore := by
  constructor
  · exact List.Pairwise.nil
  · intro k hk
    simp [emptyStore, keys, dkeys] at hk

theorem WF.pairwise_ne (h : WF s) : (dkeys s.tasks_db).Pairwise (· ≠ ·) :=
  h.1.imp Nat.ne_of_lt

theorem WF_create (p : TaskCreate) (now : DateTime) (s : StoreState) (h : WF s) :
    WF (create_task p now s).2 := by
  obtain ⟨hsort, hbound⟩ := h
  have hfresh : dictGet (s.current_id + 1) s.tasks_db = none := by
    rw [dictGet_eq_none_iff]
    intro hmem
    exact Nat.not_succ_le_self s.current_id (hbound _ hmem)
  have hdb : (create_task p now s).2.tasks_db
      = s.tasks_db ++ [(s.current_id + 1, buildTask (s.current_id + 1) p now)] :=
    dkeys_insert_absent _ _ _ hfresh
  constructor
  · show (dkeys (create_task p now s).2.tasks_db).Pairwise (· < ·)
    rw [hdb]
    rw [show dkeys (s.tasks_db ++ [(s.current_id + 1, buildTask (s.current_id + 1) p now)])
        = dkeys s.tasks_db ++ [s.current_id + 1] by
      simp [dkeys]]
    rw [List.pairwise_append]
    refine ⟨hsort, List.pairwise_singleton _ _, ?_⟩
    intro a ha b hb
    rw [List.mem_singleton] at hb
    subst hb
    exact Nat.lt_succ_of_le (hbound _ ha)
  · intro k hk
    rw [keys, hdb] at hk
    rw [show dkeys (s.tasks_db ++ [(s.current_id + 1, buildTask (s.current_id + 1) p now)])
        = dkeys s.tasks_db ++ [s.current_id + 1] by
      simp [dkeys]] at hk
    rw [create_task_current_id]
    rcases List.mem_append.1 hk with hm | hm
    · exact Nat.le_succ_of_le (hbound _ hm)
    · rw [List.mem_singleton] at hm
      subst hm
      exact Nat.le_refl _

theorem WF_update (id : Nat) (u : TaskUpdate) (s : StoreState) (h : WF s) :
    WF (update_task id u s).2 := by
  obtain ⟨hsort, hbound⟩ := h
  unfold update_task
  split
  · exact ⟨hsort, hbound⟩
  · next stored hdg =>
      split
      · exact ⟨hsort, hbound⟩
      · next t' hok =>
          have hkeys : dkeys (dictInsert id t' s.tasks_db) = dkeys s.tasks_db :=
            dkeys_insert_present id t' stored s.tasks_db hdg
          exact ⟨by
            show (dkeys (dictInsert id t' s.tasks_db)).Pairwise (· < ·)
            rw [hkeys]
            exact hsort, by
            intro k hk
            rw [keys, hkeys] at hk
            exact hbound _ hk⟩

theorem WF_delete (id : Nat) (s : StoreState) (h : WF s) :
    WF (delete_task id s).2 := by
  obtain ⟨hsort, hbound⟩ := h
  unfold delete_task
  split
  · exact ⟨hsort, hbound⟩
  · have hkeys : dkeys (dictDelete id s.tasks_db)
        = (dkeys s.tasks_db).filter (fun x => x ≠ id) :=
      dkeys_delete id s.tasks_db (List.Pairwise.imp Nat.ne_of_lt hsort)
    refine ⟨?_, ?_⟩
    · show (dkeys (dictDelete id s.tasks_db)).Pairwise (· < ·)
      rw [hkeys]
      exact List.Pairwise.sublist (List.filter_sublist _) hsort
    · intro k hk
      rw [keys] at hk
      show k ≤ s.current_id
      rw [hkeys] at hk
      exact hbound _ (List.mem_of_mem_filter hk)

theorem WF_runOp (s : StoreState) (o : Op) (h : WF s) : WF (runOp s o) := by
  cases o with
  | create p now => exact WF_create p now s h
  | update id u => exact WF_update id u s h
  | delete id => exact WF_delete id s h

theorem WF_runOps (ops : List Op) (s : StoreState) (h : WF s) : WF (runOps ops s) := by
  induction ops generalizing s with
  | nil => exact h
  | cons o ops ih => exact ih (runOp s o) (WF_runOp s o h)

/-! ### Per-operation effect lemmas -/

theorem runOps_cons (o : Op) (ops : List Op) (s : StoreState) :
    runOps (o :: ops) s = runOps ops (runOp s o) := rfl

theorem create_task_tasks_db (p : TaskCreate) (now : DateTime) (s : StoreState)
    (h : WF s) : (create_task p now s).2.tasks_db
      = s.tasks_db ++ [(s.current_id + 1, buildTask (s.current_id + 1) p now)] := by
  have hfresh : dictGet (s.current_id + 1) s.tasks_db = none := by
    rw [dictGet_eq_none_iff]
    intro hmem
    exact Nat.not_succ_le_self s.current_id (h.2 _ hmem)
  exact dkeys_insert_absent _ _ _ hfresh

/-- A `PUT` never changes which keys are stored nor their order: an absent id
is a 404 no-op, a validation failure mutates nothing, and a successful update
overwrites an existing key in place. -/
theorem keys_update_task (id : Nat) (u : TaskUpdate) (s : StoreState) :
    dkeys (update_task id u s).2.tasks_db = dkeys s.tasks_db := by
  unfold update_task
  split
  · rfl
  · next stored hdg =>
      split
      · rfl
      · next t' hok => exact dkeys_insert_present id t' stored s.tasks_db hdg

/-- A `DELETE` removes exactly the target key from the listing order, keeping
the remaining keys in their relative order. -/
theorem keys_delete_task (k : Nat) (s : StoreState) (h : WF s) :
    dkeys (delete_task k s).2.tasks_db = (dkeys s.tasks_db).filter (fun x => x ≠ k) := by
  unfold delete_task
  split
  · next hdg =>
      rw [List.filter_eq_self.2 (fun x hx => by
        simp only [decide_eq_true_eq]
        intro he
        exact (dictGet_eq_none_iff k s.tasks_db).1 hdg (he ▸ hx))]
  · exact dkeys_delete k s.tasks_db h.pairwise_ne

/-- Refinement, per id: after any trace, the store holds under `id` exactly
the value predicted by the specification-side fold `specFinal`. -/
theorem dictGet_runOps (ops : List Op) : ∀ s : StoreState, WF s → ∀ id : Nat,
    dictGet id (runOps ops s).tasks_db
      = specFinal id ops s.current_id (dictGet id s.tasks_db) := by
  induction ops with
  | nil =>
      intro s _ id
      rfl
  | cons o ops ih =>
      intro s hwf id
      rw [runOps_cons]
      cases o with
      | create p now =>
          rw [show runOp s (Op.create p now) = (create_task p now s).2 from rfl]
          rw [ih _ (WF_create p now s hwf) id]
          simp only [specFinal, create_task_current_id]
          congr 1
          by_cases hid : s.current_id + 1 = id
          · rw [if_pos hid, ← hid]
            exact dictGet_insert_self _ _ _
          · rw [if_neg hid]
            exact dictGet_insert_ne _ _ _ _ fun he => hid he.symm
      | update id' u =>
          cases hdg : dictGet id' s.tasks_db with
          | none =>
              have hstate : runOp s (.update id' u) = s := by
                show (update_task id' u s).2 = s
                unfold update_task
                simp only [hdg]
              rw [hstate, ih s hwf id]
              simp only [specFinal]
              by_cases hid : id' = id
              · rw [if_pos hid]
                rw [hid] at hdg
                simp only [hdg]
              · rw [if_neg hid]
          | some stored =>
              cases hok : taskFromData (mergeData stored.toData u) with
              | error e =>
                  have hstate : runOp s (.update id' u) = s := by
                    show (update_task id' u s).2 = s
                    unfold update_task
                    simp only [hdg, hok]
                  rw [hstate, ih s hwf id]
                  simp only [specFinal]
                  by_cases hid : id' = id
                  · rw [if_pos hid]
                    rw [hid] at hdg
                    simp only [hdg, hok]
                  · rw [if_neg hid]
              | ok t' =>
                  have hwf' : WF (runOp s (.update id' u)) := WF_runOp s _ hwf
                  have hstate : runOp s (.update id' u)
                      = { s with tasks_db := dictInsert id' t' s.tasks_db } := by
                    show (update_task id' u s).2 = _
                    unfold update_task
                    simp only [hdg, hok]
                  rw [hstate] at hwf'
                  rw [hstate, ih _ hwf' id]
                  simp only [specFinal]
                  by_cases hid : id' = id
                  · rw [if_pos hid]
                    subst hid
                    simp only [hdg, hok]
                    congr 1
                    exact dictGet_insert_self _ _ _
                  · rw [if_neg hid]
                    congr 1
                    exact dictGet_insert_ne _ _ _ _ fun he => hid he.symm
      | delete id' =>
          cases hdg : dictGet id' s.tasks_db with
          | none =>
              have hstate : runOp s (.delete id') = s := by
                show (delete_task id' s).2 = s
                unfold delete_task
                simp only [hdg]
              rw [hstate, ih s hwf id]
              simp only [specFinal]
              by_cases hid : id' = id
              · rw [if_pos hid]
                rw [hid] at hdg
                simp only [hdg]
              · rw [if_neg hid]
          | some t =>
              have hwf' : WF (runOp s (.delete id')) := WF_runOp s _ hwf
              have hstate : runOp s (.delete id')
                  = { s with tasks_db := dictDelete id' s.tasks_db } := by
                show (delete_task id' s).2 = _
                unfold delete_task
                simp only [hdg]
              rw [hstate] at hwf'
              rw [hstate, ih _ hwf' id]
              simp only [specFinal]
              by_cases hid : id' = id
              · rw [if_pos hid]
                subst hid
                congr 1
                exact dictGet_delete_self _ _ hwf.pairwise_ne
              · rw [if_neg hid]
                congr 1
                exact dictGet_delete_ne _ _ _ fun he => hid he.symm

/-- Refinement, listing order: after any trace, the stored keys in insertion
order are exactly those predicted by the specification-side fold
`specKeys`. -/
theorem dkeys_runOps (ops : List Op) : ∀ s : StoreState, WF s →
    dkeys (runOps ops s).tasks_db = specKeys ops s.current_id (dkeys s.tasks_db) := by
  induction ops with
  | nil =>
      intro s _
      rfl
  | cons o ops ih =>
      intro s hwf
      rw [runOps_cons]
      cases o with
      | create p now =>
          rw [show runOp s (Op.create p now) = (create_task p now s).2 from rfl]
          rw [ih _ (WF_create p now s hwf)]
          simp only [specKeys, create_task_current_id]
          congr 1
          rw [show (create_task p now s).2.tasks_db
              = s.tasks_db ++ [(s.current_id + 1, buildTask (s.current_id + 1) p now)]
            from create_task_tasks_db p now s hwf]
          simp [dkeys]
      | update id' u =>
          rw [show runOp s (Op.update id' u) = (update_task id' u s).2 from rfl]
          rw [ih _ (WF_update id' u s hwf)]
          simp only [specKeys, update_task_current_id]
          congr 1
          exact keys_update_task id' u s
      | delete id' =>
          rw [show runOp s (Op.delete id') = (delete_task id' s).2 from rfl]
          rw [ih _ (WF_delete id' s hwf)]
          simp only [specKeys, delete_task_current_id]
          congr 1
          exact keys_delete_task id' s hwf

/-! ### Handler characterization lemmas -/

theorem taskFromData_error (d : TaskData) (e : ApiError)
    (h : taskFromData d = .error e) : e = ApiError.validationError := by
  unfold taskFromData at h
  split at h
  · exact Except.noConfusion h
  · injection h with h
    exact h.symm

theorem update_task_present (id : Nat) (u : TaskUpdate) (s : StoreState)
    (stored : Task) (hs : dictGet id s.tasks_db = some stored) :
    update_task id u s =
      match taskFromData (mergeData stored.toData u) with
      | .error e => (.error e, s)
      | .ok t2 => (.ok t2, { s with tasks_db := dictInsert id t2 s.tasks_db }) := by
  unfold update_task
  simp only [hs]

theorem mem_dkeys_of_get (k : Nat) (d : List (Nat × Task)) (t : Task)
    (h : dictGet k d = some t) : k ∈ dkeys d := by
  by_contra hk
  rw [(dictGet_eq_none_iff k d).2 hk] at h
  exact Option.noConfusion h

/-! ### Claim theorems -/

/-- Claim C3: for every store state and id absent from the store (never
issued, or deleted), `get_task`, `update_task` and `delete_task` each fail
with the NotFound signal (`HTTPException(404, "Task not found")`) and leave
the store and the id counter unchanged; conversely, on a present id none of
them produces the NotFound signal. -/
theorem claim_C3 (id : Nat) (u : TaskUpdate) (s : StoreState) :
    (dictGet id s.tasks_db = none →
      get_task id s = (.error notFound, s)
      ∧ update_task id u s = (.error notFound, s)
      ∧ delete_task id s = (.error notFound, s))
    ∧ ∀ t, dictGet id s.tasks_db = some t →
      get_task id s = (.ok t, s)
      ∧ (∀ e, (update_task id u s).1 = .error e → e ≠ notFound)
      ∧ (delete_task id s).1 = .ok () := by
  constructor
  · intro hdg
    refine ⟨?_, ?_, ?_⟩
    · unfold get_task
      simp only [hdg]
    · unfold update_task
      simp only [hdg]
    · unfold delete_task
      simp only [hdg]
  · intro t ht
    refine ⟨?_, ?_, ?_⟩
    · unfold get_task
      simp only [ht]
    · intro e he
      rw [update_task_present id u s t ht] at he
      cases hok : taskFromData (mergeData t.toData u) with
      | error e2 =>
          simp only [hok] at he
          injection he with he
          rw [← he, taskFromData_error _ _ hok]
          decide
      | ok t2 =>
          simp only [hok] at he
          exact Except.noConfusion he
    · unfold delete_task
      simp only [ht]

/-- Concrete instantiation of C3: id 2 is absent from the one-task sample
store and yields the 404 result; id 1 is present and `get_task` succeeds. -/
theorem claim_C3_witness :
    (dictGet 2 sampleStore.tasks_db = none
      ∧ get_task 2 sampleStore = (.error notFound, sampleStore))
    ∧ (dictGet 1 sampleStore.tasks_db = some sampleTask
      ∧ get_task 1 sampleStore = (.ok sampleTask, sampleStore)) :=
  ⟨⟨by decide, ((claim_C3 2 emptyUpdate sampleStore).1 (by decide)).1⟩,
   ⟨by decide, ((claim_C3 1 emptyUpdate sampleStore).2 sampleTask (by decide)).1⟩⟩

/-- Claim C6: on a present id, a partial payload whose merge with the stored
task violates the `Task` schema makes `update_task` fail with the
ValidationError signal, and the failure happens before any state mutation:
the returned state is the input state, so the stored task and the counter are
untouched. -/
theorem claim_C6 (id : Nat) (u : TaskUpdate) (s : StoreState) (stored : Task)
    (e : ApiError) (hs : dictGet id s.tasks_db = some stored)
    (hviol : taskFromData (mergeData stored.toData u) = .error e) :
    update_task id u s = (.error ApiError.validationError, s) := by
  rw [update_task_present id u s stored hs]
  simp only [hviol]
  rw [taskFromData_error _ _ hviol]

/-- Concrete instantiation of C6: explicitly setting `title` to `null` on the
sample store fails validation and mutates nothing. -/
theorem claim_C6_witness :
    dictGet 1 sampleStore.tasks_db = some sampleTask
    ∧ taskFromData (mergeData sampleTask.toData ⟨some none, none, none, none, none⟩)
        = .error ApiError.validationError
    ∧ update_task 1 ⟨some none, none, none, none, none⟩ sampleStore
        = (.error ApiError.validationError, sampleStore) :=
  ⟨by decide, rfl,
   claim_C6 1 ⟨some none, none, none, none, none⟩ sampleStore sampleTask
     ApiError.validationError (by decide) rfl⟩

/-- Claim C7: updating a present id with the empty partial payload succeeds,
returns the stored task as-is, and leaves the state (store and counter)
exactly as it was. -/
theorem claim_C7 (id : Nat) (s : StoreState) (stored : Task)
    (hs : dictGet id s.tasks_db = some stored) :
    update_task id emptyUpdate s = (.ok stored, s) := by
  rw [update_task_present id emptyUpdate s stored hs]
  simp only [show taskFromData (mergeData stored.toData emptyUpdate) = .ok stored from rfl]
  rw [dictInsert_of_get_eq id stored s.tasks_db hs]

/-- Concrete instantiation of C7 on the sample store. -/
theorem claim_C7_witness :
    dictGet 1 sampleStore.tasks_db = some sampleTask
    ∧ update_task 1 emptyUpdate sampleStore = (.ok sampleTask, sampleStore) :=
  ⟨by decide, claim_C7 1 sampleStore sampleTask (by decide)⟩

/-- Claim C9: deleting a present id removes exactly that entry: the call
succeeds returning no content, the counter is unchanged, the id is gone, and
every other id maps to exactly the task it mapped to before. -/
theorem claim_C9 (k : Nat) (s : StoreState) (t : Task) (hwf : WF s)
    (hs : dictGet k s.tasks_db = some t) :
    ∃ s2, delete_task k s = (.ok (), s2)
      ∧ s2.current_id = s.current_id
      ∧ dictGet k s2.tasks_db = none
      ∧ ∀ k2, k2 ≠ k → dictGet k2 s2.tasks_db = dictGet k2 s.tasks_db := by
  refine ⟨{ s with tasks_db := dictDelete k s.tasks_db }, ?_, rfl, ?_, ?_⟩
  · unfold delete_task
    simp only [hs]
  · exact dictGet_delete_self k _ hwf.pairwise_ne
  · exact fun k2 hk2 => dictGet_delete_ne k k2 _ hk2

/-- Concrete instantiation of C9 on the sample store. -/
theorem claim_C9_witness :
    WF sampleStore
    ∧ dictGet 1 sampleStore.tasks_db = some sampleTask
    ∧ ∃ s2, delete_task 1 sampleStore = (.ok (), s2)
      ∧ s2.current_id = sampleStore.current_id
      ∧ dictGet 1 s2.tasks_db = none
      ∧ ∀ k2, k2 ≠ 1 → dictGet k2 s2.tasks_db = dictGet k2 sampleStore.tasks_db :=
  ⟨⟨by decide, by decide⟩, by decide,
   claim_C9 1 sampleStore sampleTask ⟨by decide, by decide⟩ (by decide)⟩

/-- Claim C10: operations preserve the relative listing order of surviving
tasks: a `PUT` never changes the key sequence at all (in particular a
successful update keeps the task in place), and a `DELETE` removes exactly
the target key, keeping the others in order. -/
theorem claim_C10 (s : StoreState) (hwf : WF s) :
    (∀ id u, keys (update_task id u s).2 = keys s)
    ∧ ∀ k, keys (delete_task k s).2 = (keys s).filter (fun x => x ≠ k) :=
  ⟨fun id u => keys_update_task id u s, fun k => keys_delete_task k s hwf⟩

/-- Concrete instantiation of C10 on the sample store. -/
theorem claim_C10_witness :
    keys (update_task 1 emptyUpdate sampleStore).2 = keys sampleStore
    ∧ keys (delete_task 1 sampleStore).2
        = (keys sampleStore).filter (fun x => x ≠ 1) :=
  ⟨(claim_C10 sampleStore ⟨by decide, by decide⟩).1 1 emptyUpdate,
   (claim_C10 sampleStore ⟨by decide, by decide⟩).2 1⟩

/-- Claim C4: a successful `update_task` overlays onto the stored task exactly
the fields explicitly set in the payload, leaves absent fields unchanged, and
never alters `id` or `created_at` (the `TaskUpdate` schema has no such fields,
and the merge keeps the stored values), so `created_at` is invariant under
updates. -/
theorem claim_C4 (id : Nat) (u : TaskUpdate) (s : StoreState) (stored t2 : Task)
    (s2 : StoreState) (hs : dictGet id s.tasks_db = some stored)
    (hu : update_task id u s = (.ok t2, s2)) :
    t2.id = stored.id ∧ t2.created_at = stored.created_at
    ∧ (u.title = none → t2.title = stored.title)
    ∧ (∀ v, u.title = some (some v) → t2.title = v)
    ∧ t2.description = u.description.getD stored.description
    ∧ (u.status = none → t2.status = stored.status)
    ∧ (∀ v, u.status = some (some v) → t2.status = v)
    ∧ t2.due_date = u.due_date.getD stored.due_date
    ∧ t2.assignee = u.assignee.getD stored.assignee := by
  rw [update_task_present id u s stored hs] at hu
  obtain ⟨ut, ud, us, udd, ua⟩ := u
  cases ut with
  | none =>
      cases us with
      | none =>
          simp only [taskFromData, mergeData, Task.toData, Option.getD_none,
            Prod.mk.injEq, Except.ok.injEq] at hu
          obtain ⟨h1, h2⟩ := hu
          subst h1
          refine ⟨rfl, rfl, fun _ => rfl, ?_, rfl, fun _ => rfl, ?_, rfl, rfl⟩
          · intro v hv
            exact Option.noConfusion hv
          · intro v hv
            exact Option.noConfusion hv
      | some osv =>
          cases osv with
          | none =>
              simp only [taskFromData, mergeData, Task.toData, Option.getD_none,
                Option.getD_some, Prod.mk.injEq] at hu
              exact absurd hu.1 (fun hcon => Except.noConfusion hcon)
          | some sv =>
              simp only [taskFromData, mergeData, Task.toData, Option.getD_none,
                Option.getD_some, Prod.mk.injEq, Except.ok.injEq] at hu
              obtain ⟨h1, h2⟩ := hu
              subst h1
              refine ⟨rfl, rfl, fun _ => rfl, ?_, rfl, ?_, ?_, rfl, rfl⟩
              · intro v hv
                exact Option.noConfusion hv
              · intro hcon
                exact Option.noConfusion hcon
              · intro v hv
                injection hv with hv
                injection hv with hv
  | some otv =>
      cases otv with
      | none =>
          cases us with
          | none =>
              simp only [taskFromData, mergeData, Task.toData, Option.getD_none,
                Option.getD_some, Prod.mk.injEq] at hu
              exact absurd hu.1 (fun hcon => Except.noConfusion hcon)
          | some osv =>
              cases osv with
              | none =>
                  simp only [taskFromData, mergeData, Task.toData,
                    Option.getD_some, Prod.mk.injEq] at hu
                  exact absurd hu.1 (fun hcon => Except.noConfusion hcon)
              | some sv =>
                  simp only [taskFromData, mergeData, Task.toData,
                    Option.getD_some, Prod.mk.injEq] at hu
                  exact absurd hu.1 (fun hcon => Except.noConfusion hcon)
      | some tv =>
          cases us with
          | none =>
              simp only [taskFromData, mergeData, Task.toData, Option.getD_none,
                Option.getD_some, Prod.mk.injEq, Except.ok.injEq] at hu
              obtain ⟨h1, h2⟩ := hu
              subst h1
              refine ⟨rfl, rfl, ?_, ?_, rfl, fun _ => rfl, ?_, rfl, rfl⟩
              · intro hcon
                exact Option.noConfusion hcon
              · intro v hv
                injection hv with hv
                injection hv with hv
              · intro v hv
                exact Option.noConfusion hv
          | some osv =>
              cases osv with
              | none =>
                  simp only [taskFromData, mergeData, Task.toData,
                    Option.getD_some, Prod.mk.injEq] at hu
                  exact absurd hu.1 (fun hcon => Except.noConfusion hcon)
              | some sv =>
                  simp only [taskFromData, mergeData, Task.toData,
                    Option.getD_some, Prod.mk.injEq, Except.ok.injEq] at hu
                  obtain ⟨h1, h2⟩ := hu
                  subst h1
                  refine ⟨rfl, rfl, ?_, ?_, rfl, ?_, ?_, rfl, rfl⟩
                  · intro hcon
                    exact Option.noConfusion hcon
                  · intro v hv
                    injection hv with hv
                    injection hv with hv
                  · intro hcon
                    exact Option.noConfusion hcon
                  · intro v hv
                    injection hv with hv
                    injection hv with hv

/-- Concrete instantiation of C4: `PUT` with only `status` set to `"done"`
keeps the sample task's id and `created_at`. -/
theorem claim_C4_witness :
    dictGet 1 sampleStore.tasks_db = some sampleTask
    ∧ update_task 1 ⟨none, none, some (some "done"), none, none⟩ sampleStore
        = (.ok ⟨"Write spec", none, "done", none, none, 1, 0⟩,
           ⟨[(1, ⟨"Write spec", none, "done", none, none, 1, 0⟩)], 1⟩)
    ∧ (⟨"Write spec", none, "done", none, none, 1, 0⟩ : Task).created_at
        = sampleTask.created_at :=
  ⟨by decide, rfl,
   (claim_C4 1 ⟨none, none, some (some "done"), none, none⟩ sampleStore sampleTask
     ⟨"Write spec", none, "done", none, none, 1, 0⟩
     ⟨[(1, ⟨"Write spec", none, "done", none, none, 1, 0⟩)], 1⟩
     (by decide) rfl).2.1⟩

/-- Claim C1: after any finite sequence of create/update/delete operations
from the empty store, the stored keys are exactly the created-and-not-deleted
ids in creation order (`specKeys`), each id holds the value of its most recent
successful create or update (`specFinal`), and `list_tasks` returns exactly
those values in that order. -/
theorem claim_C1 (ops : List Op) :
    keys (runOps ops emptyStore) = specKeys ops 0 []
    ∧ (∀ id : Nat, dictGet id (runOps ops emptyStore).tasks_db = specFinal id ops 0 none)
    ∧ list_tasks (runOps ops emptyStore)
        = (specKeys ops 0 []).filterMap (fun id => specFinal id ops 0 none) := by
  have hwf : WF (runOps ops emptyStore) := WF_runOps ops emptyStore WF_emptyStore
  have hkeys := dkeys_runOps ops emptyStore WF_emptyStore
  have hget := dictGet_runOps ops emptyStore WF_emptyStore
  refine ⟨hkeys, fun id => hget id, ?_⟩
  rw [list_tasks, values_eq_filterMap _ hwf.pairwise_ne]
  rw [show dkeys (runOps ops emptyStore).tasks_db = specKeys ops 0 [] from hkeys]
  exact List.filterMap_congr fun id _ => hget id

theorem runCreates_ids (cs : List (TaskCreate × DateTime)) : ∀ s : StoreState,
    (runCreates cs s).1 = List.range' (s.current_id + 1) cs.length := by
  induction cs with
  | nil =>
      intro s
      rfl
  | cons c cs ih =>
      intro s
      show (create_task c.1 c.2 s).1.id :: (runCreates cs (create_task c.1 c.2 s).2).1
          = List.range' (s.current_id + 1) (cs.length + 1)
      rw [List.range'_succ, ih]
      rfl

/-- Claim C2: `N` successful creates from the fresh store assign exactly the
ids `1, 2, ..., N`: the returned id list is `range' 1 N`, hence strictly
increasing (so all distinct), and the `k`-th create (0-based `k`) returns id
`k + 1`. -/
theorem claim_C2 (cs : List (TaskCreate × DateTime)) :
    (runCreates cs emptyStore).1 = List.range' 1 cs.length
    ∧ List.Pairwise (· < ·) (runCreates cs emptyStore).1
    ∧ ∀ k, (hk : k < (runCreates cs emptyStore).1.length) →
        (runCreates cs emptyStore).1.get ⟨k, hk⟩ = k + 1 := by
  have hids : (runCreates cs emptyStore).1 = List.range' 1 cs.length :=
    runCreates_ids cs emptyStore
  refine ⟨hids, ?_, ?_⟩
  · rw [hids]
    exact List.pairwise_lt_range' 1 cs.length
  · intro k hk
    rw [List.get_of_eq hids ⟨k, hk⟩, List.get_eq_getElem, List.getElem_range'_1]
    exact Nat.add_comm 1 k

/-- Concrete instantiation of C2: two creates from scratch return ids 1 and 2,
and the second one (index 1) is id 2. -/
theorem claim_C2_witness :
    (runCreates [(samplePayload, 0), (samplePayload, 3)] emptyStore).1 = [1, 2]
    ∧ 1 < (runCreates [(samplePayload, 0), (samplePayload, 3)] emptyStore).1.length
    ∧ (runCreates [(samplePayload, 0), (samplePayload, 3)] emptyStore).1.get
        ⟨1, by decide⟩ = 2 :=
  ⟨by decide, by decide,
   (claim_C2 [(samplePayload, 0), (samplePayload, 3)]).2.2 1 (by decide)⟩

theorem createdIds_gt (ops : List Op) : ∀ s : StoreState, ∀ x ∈ createdIds ops s,
    s.current_id < x := by
  induction ops with
  | nil =>
      intro s x hx
      exact absurd hx (List.not_mem_nil x)
  | cons o ops ih =>
      intro s x hx
      cases o with
      | create p now =>
          rcases List.mem_cons.1 hx with he | hm
          · rw [he]
            exact Nat.lt_succ_self _
          · have hm2 : (create_task p now s).2.current_id < x := ih _ x hm
            rw [create_task_current_id] at hm2
            exact Nat.lt_of_succ_lt hm2
      | update id u2 =>
          have h2 : (update_task id u2 s).2.current_id < x := ih _ x hx
          rw [update_task_current_id] at h2
          exact h2
      | delete id =>
          have h2 : (delete_task id s).2.current_id < x := ih _ x hx
          rw [delete_task_current_id] at h2
          exact h2

theorem no_reuse_after_delete (s : StoreState) (hwf : WF s) (k : Nat)
    (hdel : (delete_task k s).1 = .ok ()) (ops2 : List Op) :
    k ∉ createdIds ops2 (delete_task k s).2 := by
  cases hdg : dictGet k s.tasks_db with
  | none =>
      exfalso
      unfold delete_task at hdel
      simp only [hdg] at hdel
      exact Except.noConfusion hdel
  | some t =>
      have hle : k ≤ s.current_id := hwf.2 k (mem_dkeys_of_get k s.tasks_db t hdg)
      intro hmem
      have hgt : (delete_task k s).2.current_id < k := createdIds_gt ops2 _ k hmem
      rw [delete_task_current_id] at hgt
      exact Nat.lt_irrefl k (Nat.lt_of_le_of_lt hle hgt)

/-- Claim C5: after a successful `delete_task k` on a reachable store, no
later `create_task` ever hands out id `k` again: the allocator counter never
decreases and delete does not modify it, so every later created id exceeds
it. -/
theorem claim_C5 (ops : List Op) (k : Nat)
    (hdel : (delete_task k (runOps ops emptyStore)).1 = .ok ())
    (ops2 : List Op) :
    k ∉ createdIds ops2 (delete_task k (runOps ops emptyStore)).2 :=
  no_reuse_after_delete (runOps ops emptyStore)
    (WF_runOps ops emptyStore WF_emptyStore) k hdel ops2

/-- Concrete instantiation of C5: create id 1, delete it, create again — the
new id is not 1. -/
theorem claim_C5_witness :
    (delete_task 1 (runOps [Op.create samplePayload 0] emptyStore)).1 = .ok ()
    ∧ 1 ∉ createdIds [Op.create samplePayload 5]
        (delete_task 1 (runOps [Op.create samplePayload 0] emptyStore)).2 :=
  ⟨rfl, claim_C5 [Op.create samplePayload 0] 1 rfl [Op.create samplePayload 5]⟩

/-- Claim C8: every structurally valid create payload succeeds; every omitted
optional field is defaulted (`status` to `"todo"`, the nullable fields to
`null`), the new task gets the next id and the given timestamp, and the
returned task is exactly the task stored under that id. -/
theorem claim_C8 (r : RawTaskCreate) (ttl : String) (now : DateTime)
    (s : StoreState) (hr : r.title = some (some ttl)) (hst : r.status ≠ some none) :
    ∃ p task s2,
      parseTaskCreate r = .ok p
      ∧ create_task_endpoint r now s = (.ok task, s2)
      ∧ task.title = ttl
      ∧ task.id = s.current_id + 1
      ∧ task.created_at = now
      ∧ (r.status = none → task.status = "todo")
      ∧ (r.description = none → task.description = none)
      ∧ (r.due_date = none → task.due_date = none)
      ∧ (r.assignee = none → task.assignee = none)
      ∧ dictGet task.id s2.tasks_db = some task := by
  cases hstatus : r.status with
  | none =>
      have hparse : parseTaskCreate r
          = .ok ⟨ttl, r.description.getD none, "todo",
                 r.due_date.getD none, r.assignee.getD none⟩ := by
        unfold parseTaskCreate
        simp only [hr, hstatus]
      have hep : create_task_endpoint r now s
          = (.ok (create_task ⟨ttl, r.description.getD none, "todo",
                    r.due_date.getD none, r.assignee.getD none⟩ now s).1,
             (create_task ⟨ttl, r.description.getD none, "todo",
                    r.due_date.getD none, r.assignee.getD none⟩ now s).2) := by
        unfold create_task_endpoint
        simp only [hparse]
      refine ⟨_, _, _, hparse, hep, rfl, rfl, rfl, fun _ => rfl, ?_, ?_, ?_, ?_⟩
      · intro h
        show (r.description.getD none) = none
        rw [h]
        rfl
      · intro h
        show (r.due_date.getD none) = none
        rw [h]
        rfl
      · intro h
        show (r.assignee.getD none) = none
        rw [h]
        rfl
      · exact dictGet_insert_self _ _ _
  | some osv =>
      cases osv with
      | none => exact absurd hstatus hst
      | some stv =>
          have hparse : parseTaskCreate r
              = .ok ⟨ttl, r.description.getD none, stv,
                     r.due_date.getD none, r.assignee.getD none⟩ := by
            unfold parseTaskCreate
            simp only [hr, hstatus]
          have hep : create_task_endpoint r now s
              = (.ok (create_task ⟨ttl, r.description.getD none, stv,
                        r.due_date.getD none, r.assignee.getD none⟩ now s).1,
                 (create_task ⟨ttl, r.description.getD none, stv,
                        r.due_date.getD none, r.assignee.getD none⟩ now s).2) := by
            unfold create_task_endpoint
            simp only [hparse]
          refine ⟨_, _, _, hparse, hep, rfl, rfl, rfl, ?_, ?_, ?_, ?_, ?_⟩
          · intro h
            exact Option.noConfusion h
          · intro h
            show (r.description.getD none) = none
            rw [h]
            rfl
          · intro h
            show (r.due_date.getD none) = none
            rw [h]
            rfl
          · intro h
            show (r.assignee.getD none) = none
            rw [h]
            rfl
          · exact dictGet_insert_self _ _ _

/-- Concrete instantiation of C8, scenario 1 of the spec: `POST /tasks` with
only a title on the fresh store yields id 1, status `"todo"` and null optional
fields, and the result is stored. -/
theorem claim_C8_witness :
    (⟨some (some "Write spec"), none, none, none, none⟩ : RawTaskCreate).title
        = some (some "Write spec")
    ∧ (⟨some (some "Write spec"), none, none, none, none⟩ : RawTaskCreate).status
        ≠ some none
    ∧ ∃ p task s2,
        parseTaskCreate ⟨some (some "Write spec"), none, none, none, none⟩ = .ok p
        ∧ create_task_endpoint ⟨some (some "Write spec"), none, none, none, none⟩
            7 emptyStore = (.ok task, s2)
        ∧ task.title = "Write spec"
        ∧ task.id = emptyStore.current_id + 1
        ∧ task.created_at = 7
        ∧ ((⟨some (some "Write spec"), none, none, none, none⟩ : RawTaskCreate).status
              = none → task.status = "todo")
        ∧ ((⟨some (some "Write spec"), none, none, none, none⟩ : RawTaskCreate).description
              = none → task.description = none)
        ∧ ((⟨some (some "Write spec"), none, none, none, none⟩ : RawTaskCreate).due_date
              = none → task.due_date = none)
        ∧ ((⟨some (some "Write spec"), none, none, none, none⟩ : RawTaskCreate).assignee
              = none → task.assignee = none)
        ∧ dictGet task.id s2.tasks_db = some task :=
  ⟨rfl, by decide,
   claim_C8 ⟨some (some "Write spec"), none, none, none, none⟩ "Write spec" 7
     emptyStore rfl (by decide)⟩

end TaskManager




